import Mathlib

/-!
Verification of the BEP (build event protocol) JSON tailing parser and the
test-log staging/upload pipeline of the `bazelci-agent` crate
(`src/agent/src/artifact/upload.rs`).

The embedding models:
* `Json` / `BuildEvent` — the decoded structured value of one line and the
  dotted-path lookup wrapper (`BuildEvent::get`, `is_last_message`,
  `is_test_summary`).
* `Line` / `seek` / `BepJsonParser.parse` — the offset-resumable line loop of
  `BepJsonParser::parse`.  A file is modelled as the sequence of its
  newline-terminated lines; each line carries the result of the external
  `serde_json::from_str` decode (`serde`) and the number of bytes the line
  occupies (`byteLen`, including the terminating newline).  I/O faults
  (open/seek/read errors) are not modelled: the file content is an input.
  `seek` is only ever applied at offsets that fall on line boundaries (the
  theorems establish that reachable offsets do).
* `test_label_to_path` / `stage_paths_fs` / `upload_test_logs` /
  `upload_artifacts` / `buildkite_artifact_upload` / `execute_command` — the
  staging and upload pipeline.  Filesystem and process effects go through an
  `Oracle` (results of `fs::create_dir_all`, `fs::copy`, process spawn) and are
  recorded in an `Effects` trace.  `anyhow` context wrapping is modelled as a
  message prefix.
* `uploadLoop` / `upload` — the retry scheduler (`upload` in the source), with
  an explicit fuel bound on the number of loop iterations; the fixed 1s sleep
  and the initial optional delay are timing-only and not modelled, and the
  staging directory name is a parameter instead of a random probe.
-/

namespace CIAgent

/-! ## The decoded JSON value model (mirrors `serde_json::Value`) -/

inductive Json where
  | null : Json
  | bool (b : Bool) : Json
  | num (n : Int) : Json
  | str (s : String) : Json
  | arr (elems : List Json) : Json
  | obj (fields : List (String × Json)) : Json

/-- `serde_json::Value::as_bool`. -/
def Json.as_bool : Json → Option Bool
  | Json.bool b => some b
  | _ => none

/-- `serde_json::Value::as_str`. -/
def Json.as_str : Json → Option String
  | Json.str s => some s
  | _ => none

/-- `serde_json::Value::as_array`. -/
def Json.as_array : Json → Option (List Json)
  | Json.arr elems => some elems
  | _ => none

/-- `serde_json::Value::is_object`. -/
def Json.is_object : Json → Bool
  | Json.obj _ => true
  | _ => false

/-- Key lookup in an object's field list (serde maps have unique keys). -/
def lookupField (key : String) : List (String × Json) → Option Json
  | [] => none
  | (k, v) :: fs => if k = key then some v else lookupField key fs

/-- `serde_json::Value::get` with a string index: a key lookup on objects,
`None` on every other variant. -/
def Json.getKey : Json → String → Option Json
  | Json.obj fields, key => lookupField key fields
  | _, _ => none

/-! ## `BuildEvent` (query wrapper over one decoded record) -/

structure BuildEvent where
  value : Json

/-- Rust `str::split('.')` specialised to one separator character, on the
character list of the string: `""` yields `[""]`, like Rust's `split`. -/
def splitChar (c : Char) : List Char → List (List Char)
  | [] => [[]]
  | a :: rest =>
    let r := splitChar c rest
    if a == c then [] :: r
    else
      match r with
      | [] => [[a]]
      | g :: gs => (a :: g) :: gs

/-- `BuildEvent::get`: split the path on `.`, descend one object key per
segment, `None` on any missing key or non-object intermediate. -/
def BuildEvent.get (e : BuildEvent) (path : String) : Option Json :=
  ((splitChar '.' path.data).map String.mk).foldl
    (fun v seg => v.bind (fun j => j.getKey seg)) (some e.value)

/-- `BuildEvent::from_json_str`: the external `serde_json::from_str` result is
part of the input (`serde`); a successfully decoded value that is not an
object is rejected with "Not a JSON object". -/
def BuildEvent.from_json_str (serde : Except String Json) : Except String BuildEvent :=
  match serde with
  | Except.error e => Except.error e
  | Except.ok v =>
    if v.is_object then Except.ok { value := v } else Except.error "Not a JSON object"

/-- `BuildEvent::is_test_summary`. -/
def BuildEvent.is_test_summary (e : BuildEvent) : Bool :=
  (e.get "id.testSummary").isSome

/-- `BuildEvent::is_last_message`. -/
def BuildEvent.is_last_message (e : BuildEvent) : Bool :=
  ((e.get "lastMessage").bind Json.as_bool).getD false

/-! ## Parser state and the line loop of `BepJsonParser::parse` -/

structure TestLog where
  target : String
  status : String
  paths : List String
deriving DecidableEq

/-- The fields of `BepJsonParser` (the scratch read buffer `buf` is cleared
before every read and is not part of the observable state). -/
structure BepJsonParser where
  path : String
  offset : Nat
  line : Nat
  done : Bool
  test_logs : List TestLog
deriving DecidableEq

def BepJsonParser.new (path : String) : BepJsonParser :=
  { path := path, offset := 0, line := 1, done := false, test_logs := [] }

/-- The error produced for a line that fails to decode: the source path, the
current line number and the decode error (`anyhow!("{}:{}: {:?}", ...)`). -/
structure ParseError where
  path : String
  line : Nat
  msg : String
deriving DecidableEq

/-- One newline-terminated line of the event file: the external decode result
and the number of bytes `read_line` consumes for it. -/
structure Line where
  serde : Except String Json
  byteLen : Nat

/-- Total byte count of a line sequence. -/
def sumBytes (ls : List Line) : Nat := (ls.map Line.byteLen).sum

/-- `File::seek(SeekFrom::Start(offset))` on the line model: drop whole lines
covered by `offset`.  Only offsets on line boundaries are ever reached by the
parser (proved below); the value on a mid-line offset is irrelevant to every
theorem in this file. -/
def seek : List Line → Nat → List Line
  | ls, 0 => ls
  | [], _ + 1 => []
  | l :: ls, n + 1 => seek ls (n + 1 - l.byteLen)

/-- `BepJsonParser::on_test_summary`: extract label, overall status and the
`uri` of each failed output, defaulting missing/malformed fields to empty. -/
def BepJsonParser.on_test_summary (p : BepJsonParser) (build_event : BuildEvent) : BepJsonParser :=
  let test_target := ((build_event.get "id.testSummary.label").bind Json.as_str).getD ""
  let test_status := ((build_event.get "testSummary.overallStatus").bind Json.as_str).getD ""
  let failed_outputs := ((build_event.get "testSummary.failed").bind Json.as_array).getD []
  let test_log_paths := failed_outputs.map (fun output => ((output.getKey "uri").bind Json.as_str).getD "")
  { p with test_logs := p.test_logs ++ [{ target := test_target, status := test_status, paths := test_log_paths }] }

/-- The read loop of `BepJsonParser::parse`, running on the lines that remain
after the seek: EOF returns `Ok`; a decoded record advances `line` and
`offset`, then either terminates on the last-message marker, appends a test
summary, or continues; a decode failure returns the tagged error without
advancing past the failing line. -/
def BepJsonParser.parse_lines : BepJsonParser → List Line → BepJsonParser × Except ParseError Unit
  | p, [] => (p, Except.ok ())
  | p, l :: ls =>
    match BuildEvent.from_json_str l.serde with
    | Except.ok build_event =>
      let p1 : BepJsonParser := { p with line := p.line + 1, offset := p.offset + l.byteLen }
      if build_event.is_last_message then
        ({ p1 with done := true }, Except.ok ())
      else if build_event.is_test_summary then
        BepJsonParser.parse_lines (p1.on_test_summary build_event) ls
      else
        BepJsonParser.parse_lines p1 ls
    | Except.error e => (p, Except.error { path := p.path, line := p.line, msg := e })

/-- `BepJsonParser::parse`: re-open the file, seek to the stored offset, read
from there. -/
def BepJsonParser.parse (p : BepJsonParser) (file : List Line) : BepJsonParser × Except ParseError Unit :=
  BepJsonParser.parse_lines p (seek file p.offset)

/-- `BepJsonParser::has_test_status`. -/
def BepJsonParser.has_test_status (p : BepJsonParser) (status : String) : Bool :=
  p.test_logs.any (fun t => t.status == status)

/-! ## Staging paths (`test_label_to_path`) -/

/-- `std::path::MAIN_SEPARATOR` on the platform the agent runs on (Linux). -/
def MAIN_SEPARATOR : Char := '/'

def sepString : String := String.mk [MAIN_SEPARATOR]

/-- `PathBuf::push` with a relative component: add a separator only when the
base is non-empty and does not already end with one. -/
def pathPush (base name : String) : String :=
  if base.data = [] then name
  else if base.data.getLast? = some MAIN_SEPARATOR then base ++ name
  else base ++ sepString ++ name

/-- `Path::join`: an absolute argument replaces the base. -/
def pathJoin (base other : String) : String :=
  if other.data.head? = some MAIN_SEPARATOR then other else pathPush base other

/-- The character replacement in `test_label_to_path`: `'/' | ':'` become the
platform separator, everything else is unchanged. -/
def replace_separators (label : String) : List Char :=
  label.data.map (fun c => if c == '/' || c == ':' then MAIN_SEPARATOR else c)

/-- The file name pushed for a staged output: `test.log` for attempt 0,
`attempt_N.log` otherwise. -/
def log_file_name (attempt : Nat) : String :=
  if attempt == 0 then "test.log" else "attempt_" ++ toString attempt ++ ".log"

/-- The staging path of `test_label_to_path` relative to the staging root:
replace the separators, `trim_start_matches(MAIN_SEPARATOR)` (which removes
every leading separator), then push the log file name. -/
def test_label_to_path_rel (label : String) (attempt : Nat) : String :=
  pathPush (String.mk ((replace_separators label).dropWhile (fun c => c == MAIN_SEPARATOR)))
    (log_file_name attempt)

/-- `test_label_to_path`: the relative staging path joined under the staging
root. -/
def test_label_to_path (tmpdir label : String) (attempt : Nat) : String :=
  pathJoin tmpdir (test_label_to_path_rel label attempt)

/-- `str::starts_with` on the byte/character level. -/
def starts_with_str (s pat : String) : Bool := pat.data.isPrefixOf s.data

/-- `Path::parent().unwrap_or(&new_path)` rendered on the string model: the
path with its last component removed; the path itself when it has a single
component. -/
def parentDir (p : String) : String :=
  let comps := splitChar MAIN_SEPARATOR p.data
  if comps.length ≤ 1 then p
  else String.mk (List.intercalate [MAIN_SEPARATOR] comps.dropLast)

/-! ## Upload backends and effect traces -/

inductive Mode where
  | dry : Mode
  | buildkite : Mode
deriving DecidableEq

/-- Results of the external world: `fs::create_dir_all`, `fs::copy`, and
spawning the upload process (`Command::output`). -/
structure Oracle where
  create_dir_all : String → Except String Unit
  copy : String → String → Except String Unit
  exec : String → List String → Option String → Except String Unit

/-- Trace of the side effects a call performs: directories created, file
copies, external commands spawned (program, args, cwd), `println!` reports of
the dry mode, and `warn!` messages for skipped paths. -/
structure Effects where
  mkdirCalls : List String
  copyCalls : List (String × String)
  execCalls : List (String × List String × Option String)
  printCalls : List String
  warnCalls : List String
deriving DecidableEq

def emptyEffects : Effects :=
  { mkdirCalls := [], copyCalls := [], execCalls := [], printCalls := [], warnCalls := [] }

def Effects.app (a b : Effects) : Effects :=
  { mkdirCalls := a.mkdirCalls ++ b.mkdirCalls
    copyCalls := a.copyCalls ++ b.copyCalls
    execCalls := a.execCalls ++ b.execCalls
    printCalls := a.printCalls ++ b.printCalls
    warnCalls := a.warnCalls ++ b.warnCalls }

instance : HAppend Effects Effects Effects := ⟨Effects.app⟩

/-- `Vec::join(";")`. -/
def joinSep (sep : String) : List String → String
  | [] => ""
  | [a] => a
  | a :: rest => a ++ sep ++ joinSep sep rest

/-- `execute_command`: spawn the process in `cwd`; a spawn failure gets the
"Failed to execute command" context.  The exit status is not inspected. -/
def execute_command (o : Oracle) (program : String) (args : List String) (cwd : Option String) :
    Effects × Except String Unit :=
  ({ emptyEffects with execCalls := [(program, args, cwd)] },
   match o.exec program args cwd with
   | Except.ok _ => Except.ok ()
   | Except.error e => Except.error ("Failed to execute command " ++ program ++ ": " ++ e))

/-- `buildkite_artifact_upload`: one invocation per batch, paths joined by
`;`, run with the staging root as working directory. -/
def buildkite_artifact_upload (o : Oracle) (cwd : Option String) (artifacts : List String) :
    Effects × Except String Unit :=
  execute_command o "buildkite-agent" ["artifact", "upload", joinSep ";" artifacts] cwd

/-- `upload_artifacts`: dry mode merely reports each intended path; Buildkite
mode invokes the external agent. -/
def upload_artifacts (o : Oracle) (cwd : Option String) (artifacts : List String) (mode : Mode) :
    Effects × Except String Unit :=
  match mode with
  | Mode.dry =>
    ({ emptyEffects with
        printCalls := artifacts.map (fun a => match cwd with | some c => pathJoin c a | none => a) },
     Except.ok ())
  | Mode.buildkite => buildkite_artifact_upload o cwd artifacts

/-- The per-path loop of `upload_test_logs` for one entry: a path without the
`file://` prefix is skipped with a warning and does not advance the attempt
counter; otherwise the source is copied (in non-dry mode, with failures
propagated) to `test_label_to_path` and the path relative to the staging root
(`strip_prefix(tmpdir)`) is collected. -/
def stage_paths_fs (o : Oracle) (tmpdir tgt : String) (mode : Mode) :
    Nat → List String → Effects × Except String (List String)
  | _, [] => (emptyEffects, Except.ok [])
  | attempt, path :: rest =>
    if starts_with_str path "file://" then
      let src := String.mk (path.data.drop ("file://".data.length))
      let rel := test_label_to_path_rel tgt attempt
      let new_path := pathJoin tmpdir rel
      if mode ≠ Mode.dry then
        match o.create_dir_all (parentDir new_path) with
        | Except.error e =>
          ({ emptyEffects with mkdirCalls := [parentDir new_path] },
           Except.error ("Failed to create directories for " ++ new_path ++ ": " ++ e))
        | Except.ok _ =>
          match o.copy src new_path with
          | Except.error e =>
            ({ emptyEffects with mkdirCalls := [parentDir new_path], copyCalls := [(src, new_path)] },
             Except.error ("Failed to copy file " ++ src ++ " to " ++ new_path ++ ": " ++ e))
          | Except.ok _ =>
            let r := stage_paths_fs o tmpdir tgt mode (attempt + 1) rest
            ({ emptyEffects with mkdirCalls := [parentDir new_path], copyCalls := [(src, new_path)] } ++ r.1,
             r.2.map (fun arts => rel :: arts))
      else
        let r := stage_paths_fs o tmpdir tgt mode (attempt + 1) rest
        (r.1, r.2.map (fun arts => rel :: arts))
    else
      let r := stage_paths_fs o tmpdir tgt mode attempt rest
      ({ emptyEffects with warnCalls := ["Failed to upload file " ++ path] } ++ r.1, r.2)

/-- The per-entry loop of `upload_test_logs`: the attempt counter starts at 1
when the entry has more than one output path and at 0 otherwise; the first
filesystem failure aborts the whole call. -/
def stage_entries (o : Oracle) (tmpdir : String) (mode : Mode) :
    List TestLog → Effects × Except String (List String)
  | [] => (emptyEffects, Except.ok [])
  | t :: ts =>
    match stage_paths_fs o tmpdir t.target mode (if t.paths.length > 1 then 1 else 0) t.paths with
    | (eff, Except.error e) => (eff, Except.error e)
    | (eff, Except.ok arts) =>
      match stage_entries o tmpdir mode ts with
      | (eff2, Except.error e) => (eff ++ eff2, Except.error e)
      | (eff2, Except.ok arts2) => (eff ++ eff2, Except.ok (arts ++ arts2))

/-- `upload_test_logs`: an empty entry batch returns immediately; otherwise
the staged relative paths are collected and published in one batch. -/
def upload_test_logs (o : Oracle) (tmpdir : String) (test_logs : List TestLog) (mode : Mode) :
    Effects × Except String Unit :=
  if test_logs.isEmpty then (emptyEffects, Except.ok ())
  else
    match stage_entries o tmpdir mode test_logs with
    | (eff, Except.error e) => (eff, Except.error e)
    | (eff, Except.ok artifacts) =>
      let r := upload_artifacts o (some tmpdir) artifacts mode
      (eff ++ r.1, r.2)

/-- `upload_bep_json_file`: the end-of-run whole-file upload. -/
def upload_bep_json_file (o : Oracle) (mode : Mode) (build_event_json_file : String) :
    Effects × Except String Unit :=
  upload_artifacts o none [build_event_json_file] mode

/-! ## The retry scheduler (`upload`) -/

/-- The observable world across loop iterations: the file snapshot read by
iteration `i` (the producer may append between iterations) and the
filesystem/process oracle iteration `i` runs against. -/
structure Env where
  files : Nat → List Line
  oracle : Nat → Oracle

def max_retries : Nat := 5

/-- A scheduler error: either the surfaced parse error after the retry budget
is exhausted, or a failure of the final whole-file upload. -/
inductive AgentError where
  | parseErr (e : ParseError) : AgentError
  | uploadErr (msg : String) : AgentError
deriving DecidableEq

/-- The `'parse_loop'` of `upload`, with fuel bounding the number of
iterations (`none` = fuel exhausted, the loop would keep polling).  On
success the retry counter is reset, the newly appended slice of `test_logs`
is filtered to `{FAILED, TIMEOUT, FLAKY}` and handed to `upload_test_logs`,
whose failure is only warned about; on `done` the loop exits.  On failure the
counter is decremented and the loop aborts with the error once it hits 0.
The fixed 1-second sleep between iterations is timing-only. -/
def interesting_status (s : String) : Bool :=
  s == "FAILED" || s == "TIMEOUT" || s == "FLAKY"

def uploadLoop (env : Env) (tmpdir : String) (mode : Mode) :
    Nat → Nat → BepJsonParser → Nat → Nat → Option (Except ParseError BepJsonParser)
  | 0, _, _, _, _ => none
  | fuel + 1, iter, parser, retries, tlo =>
    match BepJsonParser.parse parser (env.files iter) with
    | (p1, Except.ok _) =>
      let to_upload := (p1.test_logs.drop tlo).filter (fun t => interesting_status t.status)
      let _ := upload_test_logs (env.oracle iter) tmpdir to_upload mode
      if p1.done then some (Except.ok p1)
      else uploadLoop env tmpdir mode fuel (iter + 1) p1 max_retries p1.test_logs.length
    | (p1, Except.error e) =>
      let retries1 := retries - 1
      if retries1 = 0 then some (Except.error e)
      else uploadLoop env tmpdir mode fuel (iter + 1) p1 retries1 tlo

/-- `upload`: run the loop from a fresh parser with the full retry budget;
after normal completion, if flaky monitoring is on and some entry was FLAKY,
upload the raw file once more, propagating that failure. -/
def upload (env : Env) (finalO : Oracle) (bep_json_path tmpdir : String) (mode : Mode)
    (monitor_flaky_tests : Bool) (fuel : Nat) : Option (Except AgentError Unit) :=
  match uploadLoop env tmpdir mode fuel 0 (BepJsonParser.new bep_json_path) max_retries 0 with
  | none => none
  | some (Except.error e) => some (Except.error (AgentError.parseErr e))
  | some (Except.ok parser) =>
    if monitor_flaky_tests && parser.has_test_status "FLAKY" then
      match (upload_bep_json_file finalO mode bep_json_path).2 with
      | Except.ok _ => some (Except.ok ())
      | Except.error e => some (Except.error (AgentError.uploadErr e))
    else some (Except.ok ())

/-- The chain of parser states across consecutive `parse` calls starting at
iteration `iter` with state `p`: `parseIter env iter p j` is the state before
the `j`-th call. -/
def parseIter (env : Env) (iter : Nat) (p : BepJsonParser) : Nat → BepJsonParser
  | 0 => p
  | j + 1 => (BepJsonParser.parse (parseIter env iter p j) (env.files (iter + j))).1

/-! ## Claim-facing companion definitions -/

/-- The per-path destination mapping induced by the loop in
`upload_test_logs`, aligned with the entry's output paths: `none` for a path
without the `file://` prefix (skipped, counter not advanced), otherwise the
staged relative path at the current attempt counter. -/
def stage_rel_paths (tgt : String) : Nat → List String → List (Option String)
  | _, [] => []
  | attempt, path :: rest =>
    if starts_with_str path "file://" then
      some (test_label_to_path_rel tgt attempt) :: stage_rel_paths tgt (attempt + 1) rest
    else
      none :: stage_rel_paths tgt attempt rest

/-- The destination mapping of one entry, with the source's initial attempt
counter. -/
def stage_entry_rel_paths (t : TestLog) : List (Option String) :=
  stage_rel_paths t.target (if t.paths.length > 1 then 1 else 0) t.paths

/-- Modelled from the claim (C7), for comparison with the source definition:
the same construction but stripping exactly one leading separator. -/
def test_label_to_path_claim_rel (label : String) (attempt : Nat) : String :=
  let mapped := replace_separators label
  let trimmed : List Char :=
    match mapped with
    | [] => []
    | c :: rest => if c == MAIN_SEPARATOR then rest else mapped
  pathPush (String.mk trimmed) (log_file_name attempt)

/-! ## Concrete inputs used by the witness theorems -/

/-- An oracle on which every external operation succeeds. -/
def okOracle : Oracle :=
  { create_dir_all := fun _ => Except.ok ()
    copy := fun _ _ => Except.ok ()
    exec := fun _ _ _ => Except.ok () }

/-- An oracle on which spawning the upload agent fails. -/
def execFailOracle : Oracle :=
  { create_dir_all := fun _ => Except.ok ()
    copy := fun _ _ => Except.ok ()
    exec := fun _ _ _ => Except.error "boom" }

/-- A line whose decode fails (e.g. a truncated in-progress write). -/
def badLine : Line := { serde := Except.error "bad", byteLen := 5 }

/-- A last-message marker record. -/
def lmLine : Line := { serde := Except.ok (Json.obj [("lastMessage", Json.bool true)]), byteLen := 7 }

/-- A test-summary record with overall status FLAKY and one failed output. -/
def flakyLine : Line :=
  { serde := Except.ok (Json.obj
      [("id", Json.obj [("testSummary", Json.obj [("label", Json.str "//t")])]),
       ("testSummary", Json.obj
         [("overallStatus", Json.str "FLAKY"),
          ("failed", Json.arr [Json.obj [("uri", Json.str "file:///a")]])])])
    byteLen := 10 }

/-- A file whose every snapshot is a single undecodable line. -/
def errEnv : Env := { files := fun _ => [badLine], oracle := fun _ => okOracle }

/-- A file containing a FLAKY summary, the terminal marker, and trailing bytes
that must never be read. -/
def flakyEnv : Env :=
  { files := fun _ => [flakyLine, lmLine, { serde := Except.error "never read", byteLen := 3 }]
    oracle := fun _ => okOracle }

end CIAgent

deriving instance DecidableEq for Except

namespace CIAgent

/-! ## Basic lemmas -/

theorem sumBytes_nil : sumBytes [] = 0 := rfl

theorem sumBytes_cons (l : Line) (ls : List Line) :
    sumBytes (l :: ls) = l.byteLen + sumBytes ls := by
  simp [sumBytes]

theorem sumBytes_append (a b : List Line) : sumBytes (a ++ b) = sumBytes a + sumBytes b := by
  simp [sumBytes]

theorem seek_zero (ls : List Line) : seek ls 0 = ls := by
  cases ls <;> rfl

theorem seek_append (a b : List Line) (h : ∀ l ∈ a, 0 < l.byteLen) :
    seek (a ++ b) (sumBytes a) = b := by
  induction a with
  | nil => simpa using seek_zero b
  | cons x a ih =>
    have hx : 0 < x.byteLen := h x (List.mem_cons_self x a)
    obtain ⟨m, hm⟩ := Nat.exists_eq_add_of_lt hx
    have harith : sumBytes (x :: a) = (m + sumBytes a) + 1 := by
      rw [sumBytes_cons, hm]; omega
    rw [harith, List.cons_append]
    show seek (a ++ b) ((m + sumBytes a) + 1 - x.byteLen) = b
    have : (m + sumBytes a) + 1 - x.byteLen = sumBytes a := by omega
    rw [this]
    exact ih (fun l hl => h l (List.mem_cons_of_mem x hl))

theorem seek_whole (a : List Line) (h : ∀ l ∈ a, 0 < l.byteLen) :
    seek a (sumBytes a) = [] := by
  simpa using seek_append a [] h

/-! ## Unfolding lemmas for `parse_lines` -/

theorem parse_lines_nil (p : BepJsonParser) :
    BepJsonParser.parse_lines p [] = (p, Except.ok ()) := rfl

theorem parse_lines_error (p : BepJsonParser) (l : Line) (ls : List Line) (msg : String)
    (h : BuildEvent.from_json_str l.serde = Except.error msg) :
    BepJsonParser.parse_lines p (l :: ls) =
      (p, Except.error { path := p.path, line := p.line, msg := msg }) := by
  simp [BepJsonParser.parse_lines, h]

theorem parse_lines_last (p : BepJsonParser) (l : Line) (ls : List Line) (be : BuildEvent)
    (h : BuildEvent.from_json_str l.serde = Except.ok be) (hl : be.is_last_message = true) :
    BepJsonParser.parse_lines p (l :: ls) =
      ({ p with line := p.line + 1, offset := p.offset + l.byteLen, done := true },
       Except.ok ()) := by
  simp [BepJsonParser.parse_lines, h, hl]

theorem parse_lines_summary (p : BepJsonParser) (l : Line) (ls : List Line) (be : BuildEvent)
    (h : BuildEvent.from_json_str l.serde = Except.ok be) (hl : be.is_last_message = false)
    (hs : be.is_test_summary = true) :
    BepJsonParser.parse_lines p (l :: ls) =
      BepJsonParser.parse_lines
        (BepJsonParser.on_test_summary
          { p with line := p.line + 1, offset := p.offset + l.byteLen } be) ls := by
  simp [BepJsonParser.parse_lines, h, hl, hs]

theorem parse_lines_other (p : BepJsonParser) (l : Line) (ls : List Line) (be : BuildEvent)
    (h : BuildEvent.from_json_str l.serde = Except.ok be) (hl : be.is_last_message = false)
    (hs : be.is_test_summary = false) :
    BepJsonParser.parse_lines p (l :: ls) =
      BepJsonParser.parse_lines { p with line := p.line + 1, offset := p.offset + l.byteLen } ls := by
  simp [BepJsonParser.parse_lines, h, hl, hs]

theorem on_test_summary_path (p : BepJsonParser) (be : BuildEvent) :
    (p.on_test_summary be).path = p.path := rfl

theorem on_test_summary_offset (p : BepJsonParser) (be : BuildEvent) :
    (p.on_test_summary be).offset = p.offset := rfl

theorem on_test_summary_line (p : BepJsonParser) (be : BuildEvent) :
    (p.on_test_summary be).line = p.line := rfl

theorem on_test_summary_done (p : BepJsonParser) (be : BuildEvent) :
    (p.on_test_summary be).done = p.done := rfl

theorem on_test_summary_logs (p : BepJsonParser) (be : BuildEvent) :
    ∃ entry, (p.on_test_summary be).test_logs = p.test_logs ++ [entry] :=
  ⟨_, rfl⟩

/-! ## Structural lemmas for the read loop -/

/-- Reading a block of successfully decoded, non-terminal records advances the
state deterministically past the block. -/
theorem parse_lines_append_ok :
    ∀ (mid : List Line) (p : BepJsonParser) (rest : List Line),
      (∀ l ∈ mid, ∃ be, BuildEvent.from_json_str l.serde = Except.ok be ∧
        be.is_last_message = false) →
      ∃ q : BepJsonParser,
        BepJsonParser.parse_lines p (mid ++ rest) = BepJsonParser.parse_lines q rest ∧
        q.path = p.path ∧ q.done = p.done ∧
        q.offset = p.offset + sumBytes mid ∧ q.line = p.line + mid.length ∧
        ∃ new, q.test_logs = p.test_logs ++ new := by
  intro mid
  induction mid with
  | nil =>
    intro p rest _
    exact ⟨p, by simp, rfl, rfl, by simp [sumBytes_nil], by simp, ⟨[], by simp⟩⟩
  | cons l mid ih =>
    intro p rest hall
    obtain ⟨be, hok, hlast⟩ := hall l (List.mem_cons_self l mid)
    have hall2 : ∀ x ∈ mid, ∃ be, BuildEvent.from_json_str x.serde = Except.ok be ∧
        be.is_last_message = false :=
      fun x hx => hall x (List.mem_cons_of_mem l hx)
    by_cases hs : be.is_test_summary = true
    · set p2 := BepJsonParser.on_test_summary
        { p with line := p.line + 1, offset := p.offset + l.byteLen } be with hp2
      obtain ⟨q, h1, h2, h3, h4, h5, new, h6⟩ := ih p2 rest hall2
      obtain ⟨entry, hentry⟩ := on_test_summary_logs
        { p with line := p.line + 1, offset := p.offset + l.byteLen } be
      refine ⟨q, ?_, ?_, ?_, ?_, ?_, ⟨entry :: new, ?_⟩⟩
      · rw [List.cons_append, parse_lines_summary p l (mid ++ rest) be hok hlast hs, ← hp2, h1]
      · rw [h2, hp2, on_test_summary_path]
      · rw [h3, hp2, on_test_summary_done]
      · rw [h4, hp2, on_test_summary_offset]; simp [sumBytes_cons]; omega
      · rw [h5, hp2, on_test_summary_line]; simp; omega
      · rw [h6, hp2, hentry]; simp
    · have hs2 : be.is_test_summary = false := by
        cases h : be.is_test_summary
        · rfl
        · exact absurd h hs
      set p2 : BepJsonParser :=
        { p with line := p.line + 1, offset := p.offset + l.byteLen } with hp2
      obtain ⟨q, h1, h2, h3, h4, h5, new, h6⟩ := ih p2 rest hall2
      refine ⟨q, ?_, ?_, ?_, ?_, ?_, ⟨new, ?_⟩⟩
      · rw [List.cons_append, parse_lines_other p l (mid ++ rest) be hok hlast hs2, ← hp2, h1]
      · rw [h2]
      · rw [h3]
      · rw [h4]; simp [hp2, sumBytes_cons]; omega
      · rw [h5]; simp [hp2]; omega
      · rw [h6]

/-- A terminal record is consumed and stops the loop at once; nothing after it
is read, so the result does not depend on the bytes that follow it. -/
theorem parse_lines_post_indep :
    ∀ (mid : List Line) (p : BepJsonParser) (lm : Line) (post : List Line),
      (∀ l ∈ mid, ∃ be, BuildEvent.from_json_str l.serde = Except.ok be ∧
        be.is_last_message = false) →
      (∃ be, BuildEvent.from_json_str lm.serde = Except.ok be ∧ be.is_last_message = true) →
      BepJsonParser.parse_lines p (mid ++ lm :: post) =
        BepJsonParser.parse_lines p (mid ++ [lm]) := by
  intro mid
  induction mid with
  | nil =>
    intro p lm post _ hlm
    obtain ⟨be, hok, hlast⟩ := hlm
    simp only [List.nil_append]
    rw [parse_lines_last p lm post be hok hlast, parse_lines_last p lm [] be hok hlast]
  | cons l mid ih =>
    intro p lm post hall hlm
    obtain ⟨be, hok, hlast⟩ := hall l (List.mem_cons_self l mid)
    have hall2 : ∀ x ∈ mid, ∃ be, BuildEvent.from_json_str x.serde = Except.ok be ∧
        be.is_last_message = false :=
      fun x hx => hall x (List.mem_cons_of_mem l hx)
    by_cases hs : be.is_test_summary = true
    · rw [List.cons_append, List.cons_append,
        parse_lines_summary p l (mid ++ lm :: post) be hok hlast hs,
        parse_lines_summary p l (mid ++ [lm]) be hok hlast hs]
      exact ih _ lm post hall2 hlm
    · have hs2 : be.is_test_summary = false := by
        cases h : be.is_test_summary
        · rfl
        · exact absurd h hs
      rw [List.cons_append, List.cons_append,
        parse_lines_other p l (mid ++ lm :: post) be hok hlast hs2,
        parse_lines_other p l (mid ++ [lm]) be hok hlast hs2]
      exact ih _ lm post hall2 hlm

/-- The state invariants of one run of the read loop: offset and line are
monotone and advance exactly over an initial block of successfully decoded
lines; `done` never reverts; `test_logs` only has entries appended. -/
theorem parse_lines_invariants :
    ∀ (ls : List Line) (p : BepJsonParser),
      p.offset ≤ (BepJsonParser.parse_lines p ls).1.offset ∧
      p.line ≤ (BepJsonParser.parse_lines p ls).1.line ∧
      (p.done = true → (BepJsonParser.parse_lines p ls).1.done = true) ∧
      (∃ new, (BepJsonParser.parse_lines p ls).1.test_logs = p.test_logs ++ new) ∧
      ∃ k, k ≤ ls.length ∧
        (∀ l ∈ ls.take k, ∃ be, BuildEvent.from_json_str l.serde = Except.ok be) ∧
        (BepJsonParser.parse_lines p ls).1.offset = p.offset + sumBytes (ls.take k) ∧
        (BepJsonParser.parse_lines p ls).1.line = p.line + k := by
  intro ls
  induction ls with
  | nil =>
    intro p
    refine ⟨le_refl _, le_refl _, fun h => h, ⟨[], by simp [parse_lines_nil]⟩,
      ⟨0, by simp [parse_lines_nil, sumBytes_nil]⟩⟩
  | cons l ls ih =>
    intro p
    cases hser : BuildEvent.from_json_str l.serde with
    | error msg =>
      rw [parse_lines_error p l ls msg hser]
      refine ⟨le_refl _, le_refl _, fun h => h, ⟨[], by simp⟩, ⟨0, by simp [sumBytes_nil]⟩⟩
    | ok be =>
      cases hlast : be.is_last_message with
      | true =>
        rw [parse_lines_last p l ls be hser hlast]
        refine ⟨by simp, by simp, fun _ => rfl, ⟨[], by simp⟩,
          ⟨1, by simp, ?_, by simp [sumBytes_cons, sumBytes_nil], by simp⟩⟩
        intro x hx
        rw [List.take_one, List.head?_cons] at hx
        simp only [Option.toList_some, List.mem_singleton] at hx
        exact ⟨be, hx ▸ hser⟩
      | false =>
        by_cases hs : be.is_test_summary = true
        · set p2 := BepJsonParser.on_test_summary
            { p with line := p.line + 1, offset := p.offset + l.byteLen } be with hp2
          rw [parse_lines_summary p l ls be hser hlast hs, ← hp2]
          obtain ⟨hoff, hline, hdone, ⟨new, hlogs⟩, k, hk, hkdec, hkoff, hkline⟩ := ih p2
          have hp2off : p2.offset = p.offset + l.byteLen := by
            rw [hp2, on_test_summary_offset]
          have hp2line : p2.line = p.line + 1 := by
            rw [hp2, on_test_summary_line]
          have hp2done : p2.done = p.done := by
            rw [hp2, on_test_summary_done]
          obtain ⟨entry, hentry⟩ := on_test_summary_logs
            { p with line := p.line + 1, offset := p.offset + l.byteLen } be
          refine ⟨?_, ?_, ?_, ⟨entry :: new, ?_⟩, ⟨k + 1, ?_, ?_, ?_, ?_⟩⟩
          · omega
          · omega
          · intro h; exact hdone (by rw [hp2done, h])
          · rw [hlogs, hp2, hentry]; simp
          · simpa using Nat.succ_le_succ hk
          · intro x hx
            rw [List.take_succ_cons] at hx
            rcases List.mem_cons.mp hx with h | h
            · exact ⟨be, h ▸ hser⟩
            · exact hkdec x h
          · rw [List.take_succ_cons, sumBytes_cons, hkoff, hp2off]; omega
          · rw [hkline, hp2line]; omega
        · have hs2 : be.is_test_summary = false := by
            cases h : be.is_test_summary
            · rfl
            · exact absurd h hs
          set p2 : BepJsonParser :=
            { p with line := p.line + 1, offset := p.offset + l.byteLen } with hp2
          rw [parse_lines_other p l ls be hser hlast hs2, ← hp2]
          obtain ⟨hoff, hline, hdone, ⟨new, hlogs⟩, k, hk, hkdec, hkoff, hkline⟩ := ih p2
          have hp2off : p2.offset = p.offset + l.byteLen := by rw [hp2]
          have hp2line : p2.line = p.line + 1 := by rw [hp2]
          refine ⟨?_, ?_, ?_, ⟨new, ?_⟩, ⟨k + 1, ?_, ?_, ?_, ?_⟩⟩
          · omega
          · omega
          · intro h; exact hdone (by rw [hp2, h])
          · rw [hlogs, hp2]
          · simpa using Nat.succ_le_succ hk
          · intro x hx
            rw [List.take_succ_cons] at hx
            rcases List.mem_cons.mp hx with h | h
            · exact ⟨be, h ▸ hser⟩
            · exact hkdec x h
          · rw [List.take_succ_cons, sumBytes_cons, hkoff, hp2off]; omega
          · rw [hkline, hp2line]; omega

/-! ## Claim C1 -/

/-- C1: if a line fails to decode as a structured object, `parse()` returns an
error carrying the source path and the current `line_number`; `byte_offset`
and `line_number` are not advanced past the failing line (they reflect only
the successfully decoded lines before it), so the next call seeks straight
back to the failing line's bytes and fails identically until the line
changes. -/
theorem c1_decode_failure_no_advance
    (p : BepJsonParser) (file pre good : List Line) (bad : Line) (ls : List Line) (msg : String)
    (hfile : file = pre ++ good ++ bad :: ls)
    (hoff : p.offset = sumBytes pre)
    (hpos : ∀ l ∈ file, 0 < l.byteLen)
    (hgood : ∀ l ∈ good, ∃ be, BuildEvent.from_json_str l.serde = Except.ok be ∧
      be.is_last_message = false)
    (hbad : BuildEvent.from_json_str bad.serde = Except.error msg) :
    (p.parse file).2 = Except.error { path := p.path, line := p.line + good.length, msg := msg } ∧
    (p.parse file).1.path = p.path ∧
    (p.parse file).1.line = p.line + good.length ∧
    (p.parse file).1.offset = p.offset + sumBytes good ∧
    (p.parse file).1.done = p.done ∧
    (∃ new, (p.parse file).1.test_logs = p.test_logs ++ new) ∧
    seek file ((p.parse file).1.offset) = bad :: ls ∧
    BepJsonParser.parse ((p.parse file).1) file =
      ((p.parse file).1,
       Except.error { path := p.path, line := p.line + good.length, msg := msg }) := by
  have hfile1 : file = pre ++ (good ++ bad :: ls) := by
    rw [hfile, List.append_assoc]
  have hpre : ∀ l ∈ pre, 0 < l.byteLen := by
    intro l hl
    apply hpos
    rw [hfile1]
    exact List.mem_append_left _ hl
  have hpregood : ∀ l ∈ pre ++ good, 0 < l.byteLen := by
    intro l hl
    apply hpos
    rw [hfile]
    exact List.mem_append_left _ hl
  have hseek : seek file p.offset = good ++ bad :: ls := by
    rw [hfile1, hoff]
    exact seek_append pre (good ++ bad :: ls) hpre
  obtain ⟨q, hq1, hqpath, hqdone, hqoff, hqline, new, hqlogs⟩ :=
    parse_lines_append_ok good p (bad :: ls) hgood
  have herr : ({ path := q.path, line := q.line, msg := msg } : ParseError) =
      { path := p.path, line := p.line + good.length, msg := msg } := by
    rw [hqpath, hqline]
  have hparse : p.parse file =
      (q, Except.error { path := p.path, line := p.line + good.length, msg := msg }) := by
    rw [BepJsonParser.parse, hseek, hq1, parse_lines_error q bad ls msg hbad, herr]
  have hqoff2 : q.offset = sumBytes (pre ++ good) := by
    rw [hqoff, hoff, sumBytes_append]
  have hseek2 : seek file q.offset = bad :: ls := by
    rw [hfile, hqoff2]
    exact seek_append (pre ++ good) (bad :: ls) hpregood
  rw [hparse]
  refine ⟨rfl, hqpath, hqline, by rw [hqoff, hoff], hqdone, ⟨new, hqlogs⟩, hseek2, ?_⟩
  rw [BepJsonParser.parse, hseek2, parse_lines_error q bad ls msg hbad, herr]

theorem c1_witness :
    ((BepJsonParser.new "f").parse [badLine]).2 =
      Except.error { path := "f", line := 1, msg := "bad" } := by
  have h := c1_decode_failure_no_advance (BepJsonParser.new "f") [badLine] [] [] badLine [] "bad"
    rfl rfl
    (by intro l hl; rw [List.mem_singleton] at hl; subst hl; decide)
    (by intro l hl; cases hl)
    rfl
  simpa [BepJsonParser.new] using h.1

/-! ## Claim C2 -/

/-- C2: a decoded record whose last-message marker is true makes `parse()` set
`done` and return success immediately, consuming exactly through that record:
the result is identical whatever bytes follow the marker (they are never
read), and the scheduler loop exits as soon as a call reports `done`, so no
later call happens either. -/
theorem c2_last_message_terminal :
    (∀ (p : BepJsonParser) (file pre mid : List Line) (lm : Line) (post : List Line),
      file = pre ++ mid ++ lm :: post →
      p.offset = sumBytes pre →
      (∀ l ∈ file, 0 < l.byteLen) →
      (∀ l ∈ mid, ∃ be, BuildEvent.from_json_str l.serde = Except.ok be ∧
        be.is_last_message = false) →
      (∃ be, BuildEvent.from_json_str lm.serde = Except.ok be ∧ be.is_last_message = true) →
      p.parse file = p.parse (pre ++ mid ++ [lm]) ∧
      (p.parse file).2 = Except.ok () ∧
      (p.parse file).1.done = true ∧
      (p.parse file).1.offset = sumBytes pre + sumBytes mid + lm.byteLen) ∧
    (∀ (env : Env) (tmpdir : String) (mode : Mode) (fuel iter retries tlo : Nat)
        (q q1 : BepJsonParser),
      BepJsonParser.parse q (env.files iter) = (q1, Except.ok ()) → q1.done = true →
      uploadLoop env tmpdir mode (fuel + 1) iter q retries tlo = some (Except.ok q1)) := by
  constructor
  · intro p file pre mid lm post hfile hoff hpos hmid hlm
    obtain ⟨be, hok, hlast⟩ := hlm
    have hfile1 : file = pre ++ (mid ++ lm :: post) := by
      rw [hfile, List.append_assoc]
    have hpre : ∀ l ∈ pre, 0 < l.byteLen := by
      intro l hl
      apply hpos
      rw [hfile1]
      exact List.mem_append_left _ hl
    have hseek : seek file p.offset = mid ++ lm :: post := by
      rw [hfile1, hoff]
      exact seek_append pre (mid ++ lm :: post) hpre
    have hseek2 : seek (pre ++ mid ++ [lm]) p.offset = mid ++ [lm] := by
      rw [List.append_assoc, hoff]
      exact seek_append pre (mid ++ [lm]) hpre
    have hindep : p.parse file = p.parse (pre ++ mid ++ [lm]) := by
      rw [BepJsonParser.parse, BepJsonParser.parse, hseek, hseek2]
      exact parse_lines_post_indep mid p lm post hmid ⟨be, hok, hlast⟩
    obtain ⟨q, hq1, hqpath, hqdone, hqoff, hqline, new, hqlogs⟩ :=
      parse_lines_append_ok mid p (lm :: post) hmid
    have hparse : p.parse file =
        ({ q with line := q.line + 1, offset := q.offset + lm.byteLen, done := true },
         Except.ok ()) := by
      rw [BepJsonParser.parse, hseek, hq1, parse_lines_last q lm post be hok hlast]
    refine ⟨hindep, ?_, ?_, ?_⟩
    · rw [hparse]
    · rw [hparse]
    · rw [hparse]
      show q.offset + lm.byteLen = sumBytes pre + sumBytes mid + lm.byteLen
      rw [hqoff, hoff]
  · intro env tmpdir mode fuel iter retries tlo q q1 hparse hdone
    simp only [uploadLoop]
    rw [hparse]
    simp [hdone]

theorem c2_witness :
    (BepJsonParser.new "f").parse [lmLine, badLine] = (BepJsonParser.new "f").parse [lmLine] := by
  have h := c2_last_message_terminal.1 (BepJsonParser.new "f") [lmLine, badLine] [] [] lmLine
    [badLine] rfl rfl
    (by intro l hl; simp only [List.mem_cons, List.mem_singleton, List.not_mem_nil, or_false] at hl
        rcases hl with rfl | rfl <;> decide)
    (by intro l hl; cases hl)
    ⟨{ value := Json.obj [("lastMessage", Json.bool true)] }, rfl, rfl⟩
  simpa using h.1

/-! ## Claim C3 -/

/-- C3: reaching end of file without a terminal marker is success with `done`
left unchanged (false for a fresh parser); and once the offset sits at end of
file, a further call with no new bytes is an exact fixpoint: it succeeds and
leaves the whole state — offset, line number, `done`, `test_logs` — exactly as
it was, so repeated calls produce no duplicates. -/
theorem c3_eof_idempotent
    (p : BepJsonParser) (file pre rest : List Line)
    (hfile : file = pre ++ rest)
    (hoff : p.offset = sumBytes pre)
    (hpos : ∀ l ∈ file, 0 < l.byteLen)
    (hrest : ∀ l ∈ rest, ∃ be, BuildEvent.from_json_str l.serde = Except.ok be ∧
      be.is_last_message = false) :
    (p.parse file).2 = Except.ok () ∧
    (p.parse file).1.done = p.done ∧
    (p.parse file).1.offset = sumBytes file ∧
    BepJsonParser.parse ((p.parse file).1) file = ((p.parse file).1, Except.ok ()) := by
  have hpre : ∀ l ∈ pre, 0 < l.byteLen := by
    intro l hl
    apply hpos
    rw [hfile]
    exact List.mem_append_left _ hl
  have hseek : seek file p.offset = rest := by
    rw [hfile, hoff]
    exact seek_append pre rest hpre
  obtain ⟨q, hq1, hqpath, hqdone, hqoff, hqline, new, hqlogs⟩ :=
    parse_lines_append_ok rest p [] hrest
  have hparse : p.parse file = (q, Except.ok ()) := by
    rw [BepJsonParser.parse, hseek, ← List.append_nil rest, hq1, parse_lines_nil]
  have hqoff2 : q.offset = sumBytes file := by
    rw [hqoff, hoff, hfile, sumBytes_append]
  refine ⟨by rw [hparse], by rw [hparse]; exact hqdone, by rw [hparse]; exact hqoff2, ?_⟩
  rw [hparse]
  show BepJsonParser.parse q file = (q, Except.ok ())
  rw [BepJsonParser.parse, hqoff2, seek_whole file hpos, parse_lines_nil]

theorem c3_witness :
    BepJsonParser.parse (((BepJsonParser.new "f").parse []).1) [] =
      ((((BepJsonParser.new "f").parse []).1), Except.ok ()) := by
  have h := c3_eof_idempotent (BepJsonParser.new "f") [] [] [] rfl rfl
    (by intro l hl; cases hl) (by intro l hl; cases hl)
  exact h.2.2.2

/-! ## Claim C4 -/

/-- C4: across any `parse()` call, from any state: `byte_offset` and
`line_number` never decrease and advance exactly over an initial block of
successfully decoded lines of the remaining input (so they move only on
successful decodes); `done` never reverts from true; `test_logs` only grows
by appending (entries are never removed or reordered). -/
theorem c4_parser_invariants (p : BepJsonParser) (file : List Line) :
    p.offset ≤ (p.parse file).1.offset ∧
    p.line ≤ (p.parse file).1.line ∧
    (p.done = true → (p.parse file).1.done = true) ∧
    (∃ new, (p.parse file).1.test_logs = p.test_logs ++ new) ∧
    ∃ k, k ≤ (seek file p.offset).length ∧
      (∀ l ∈ (seek file p.offset).take k,
        ∃ be, BuildEvent.from_json_str l.serde = Except.ok be) ∧
      (p.parse file).1.offset = p.offset + sumBytes ((seek file p.offset).take k) ∧
      (p.parse file).1.line = p.line + k :=
  parse_lines_invariants (seek file p.offset) p

theorem c4_witness :
    (BepJsonParser.new "f").offset ≤ (((BepJsonParser.new "f").parse [badLine]).1).offset :=
  (c4_parser_invariants (BepJsonParser.new "f") [badLine]).1

/-! ## Claim C5 -/

theorem parseIter_shift :
    ∀ (j : Nat) (env : Env) (iter : Nat) (p : BepJsonParser),
      parseIter env (iter + 1) ((BepJsonParser.parse p (env.files iter)).1) j =
        parseIter env iter p (j + 1) := by
  intro j
  induction j with
  | zero =>
    intro env iter p
    simp [parseIter]
  | succ j ih =>
    intro env iter p
    show (BepJsonParser.parse (parseIter env (iter + 1) _ j) (env.files (iter + 1 + j))).1 =
      parseIter env iter p (j + 1 + 1)
    rw [ih]
    have harith : iter + 1 + j = iter + (j + 1) := by omega
    rw [harith]
    rfl

/-- Starting the loop with a budget of `n` consecutive decode failures ahead
aborts on the `n`-th failure, surfacing that (most recent) error. -/
theorem uploadLoop_err_run :
    ∀ (n fuel : Nat) (env : Env) (tmpdir : String) (mode : Mode)
      (e : Nat → ParseError) (iter tlo : Nat) (p : BepJsonParser),
      0 < n → n ≤ fuel →
      (∀ j, j < n →
        (BepJsonParser.parse (parseIter env iter p j) (env.files (iter + j))).2 =
          Except.error (e j)) →
      uploadLoop env tmpdir mode fuel iter p n tlo = some (Except.error (e (n - 1))) := by
  intro n
  induction n with
  | zero =>
    intro fuel env tmpdir mode e iter tlo p hn
    exact absurd hn (Nat.lt_irrefl 0)
  | succ n ih =>
    intro fuel env tmpdir mode e iter tlo p hn hfuel herr
    obtain ⟨m, rfl⟩ : ∃ m, fuel = m + 1 := ⟨fuel - 1, by omega⟩
    rcases hpr : BepJsonParser.parse p (env.files iter) with ⟨p1, r⟩
    have h0r : r = Except.error (e 0) := by
      have h0 : (BepJsonParser.parse (parseIter env iter p 0) (env.files (iter + 0))).2 =
          Except.error (e 0) := herr 0 (Nat.succ_pos n)
      rw [show parseIter env iter p 0 = p from rfl, Nat.add_zero, hpr] at h0
      exact h0
    subst h0r
    simp only [uploadLoop]
    rw [hpr]
    cases n with
    | zero =>
      simp
    | succ n2 =>
      have hshift : ∀ j, j < n2 + 1 →
          (BepJsonParser.parse (parseIter env (iter + 1) p1 j) (env.files (iter + 1 + j))).2 =
            Except.error (e (j + 1)) := by
        intro j hj
        have h2 := herr (j + 1) (by omega)
        have hsh := parseIter_shift j env iter p
        rw [hpr] at hsh
        rw [← hsh, show iter + (j + 1) = iter + 1 + j from by omega] at h2
        exact h2
      have hrec := ih m env tmpdir mode (fun j => e (j + 1)) (iter + 1) tlo p1
        (Nat.succ_pos n2) (by omega) hshift
      simpa using hrec

/-- C5: the scheduler's consecutive-error counter starts at the fixed budget
`max_retries = 5`; each `parse()` failure decrements it and, when it hits
zero, the loop aborts surfacing the most recent error (so 5 consecutive
failures from the start abort the run with the 5th error); any successful
`parse()` call resets the counter to the full budget for the next
iteration. -/
theorem c5_retry_budget :
    (∀ (env : Env) (finalO : Oracle) (path tmpdir : String) (mode : Mode)
        (mon : Bool) (fuel : Nat) (e : Nat → ParseError),
      max_retries ≤ fuel →
      (∀ j, j < max_retries →
        (BepJsonParser.parse (parseIter env 0 (BepJsonParser.new path) j) (env.files j)).2 =
          Except.error (e j)) →
      upload env finalO path tmpdir mode mon fuel =
        some (Except.error (AgentError.parseErr (e 4)))) ∧
    (∀ (env : Env) (tmpdir : String) (mode : Mode) (fuel iter retries tlo : Nat)
        (q q1 : BepJsonParser),
      BepJsonParser.parse q (env.files iter) = (q1, Except.ok ()) → q1.done = false →
      uploadLoop env tmpdir mode (fuel + 1) iter q retries tlo =
        uploadLoop env tmpdir mode fuel (iter + 1) q1 max_retries q1.test_logs.length) ∧
    (∀ (env : Env) (tmpdir : String) (mode : Mode) (fuel iter retries tlo : Nat)
        (q q1 : BepJsonParser) (e : ParseError),
      BepJsonParser.parse q (env.files iter) = (q1, Except.error e) →
      (retries = 1 →
        uploadLoop env tmpdir mode (fuel + 1) iter q retries tlo = some (Except.error e)) ∧
      (2 ≤ retries →
        uploadLoop env tmpdir mode (fuel + 1) iter q retries tlo =
          uploadLoop env tmpdir mode fuel (iter + 1) q1 (retries - 1) tlo)) := by
  refine ⟨?_, ?_, ?_⟩
  · intro env finalO path tmpdir mode mon fuel e hfuel herr
    have herr0 : ∀ j, j < max_retries →
        (BepJsonParser.parse (parseIter env 0 (BepJsonParser.new path) j)
          (env.files (0 + j))).2 = Except.error (e j) := by
      intro j hj
      rw [Nat.zero_add]
      exact herr j hj
    have hloop := uploadLoop_err_run max_retries fuel env tmpdir mode e 0 0
      (BepJsonParser.new path) (by decide) hfuel herr0
    simp only [upload]
    rw [hloop]
    rfl
  · intro env tmpdir mode fuel iter retries tlo q q1 hparse hdone
    simp only [uploadLoop]
    rw [hparse]
    simp [hdone]
  · intro env tmpdir mode fuel iter retries tlo q q1 e hparse
    constructor
    · intro h1
      subst h1
      simp only [uploadLoop]
      rw [hparse]
      simp
    · intro h2
      have hne : ¬(retries - 1 = 0) := by omega
      simp only [uploadLoop]
      rw [hparse]
      simp [hne]

theorem c5_witness :
    upload errEnv okOracle "f" "tmp" Mode.dry false 5 =
      some (Except.error (AgentError.parseErr { path := "f", line := 1, msg := "bad" })) := by
  apply c5_retry_budget.1 errEnv okOracle "f" "tmp" Mode.dry false 5
    (fun _ => { path := "f", line := 1, msg := "bad" }) (by decide)
  intro j hj
  have hj5 : j < 5 := hj
  interval_cases j <;> rfl

/-! ## Claim C6 -/

theorem stage_rel_paths_length :
    ∀ (paths : List String) (tgt : String) (a : Nat),
      (stage_rel_paths tgt a paths).length = paths.length := by
  intro paths
  induction paths with
  | nil => intro tgt a; rfl
  | cons p rest ih =>
    intro tgt a
    cases hp : starts_with_str p "file://" <;>
      simp [stage_rel_paths, hp, ih]

/-- The destination of the `i`-th output path, when staged: its attempt
number is the initial counter plus the number of `file://` paths before it
(paths without the prefix do not advance the counter). -/
theorem stage_rel_paths_get :
    ∀ (paths : List String) (tgt : String) (a i : Nat) (r : String),
      (stage_rel_paths tgt a paths).get? i = some (some r) →
      (∃ s, paths.get? i = some s ∧ starts_with_str s "file://" = true) ∧
      r = test_label_to_path_rel tgt
        (a + (paths.take i).countP (fun s => starts_with_str s "file://")) := by
  intro paths
  induction paths with
  | nil =>
    intro tgt a i r h
    simp [stage_rel_paths] at h
  | cons p rest ih =>
    intro tgt a i r h
    cases hp : starts_with_str p "file://" with
    | true =>
      rw [show stage_rel_paths tgt a (p :: rest) =
          some (test_label_to_path_rel tgt a) :: stage_rel_paths tgt (a + 1) rest from by
        simp [stage_rel_paths, hp]] at h
      cases i with
      | zero =>
        simp only [List.get?_cons_zero, Option.some.injEq] at h
        refine ⟨⟨p, rfl, hp⟩, ?_⟩
        simp [← h]
      | succ i =>
        simp only [List.get?_cons_succ] at h
        obtain ⟨⟨s, hs, hsp⟩, hr⟩ := ih tgt (a + 1) i r h
        refine ⟨⟨s, by simpa using hs, hsp⟩, ?_⟩
        rw [hr, List.take_succ_cons, List.countP_cons]
        simp only [hp, if_true]
        have : a + 1 + List.countP (fun s => starts_with_str s "file://") (List.take i rest) =
            a + (List.countP (fun s => starts_with_str s "file://") (List.take i rest) + 1) := by
          omega
        rw [this]
    | false =>
      rw [show stage_rel_paths tgt a (p :: rest) = none :: stage_rel_paths tgt a rest from by
        simp [stage_rel_paths, hp]] at h
      cases i with
      | zero => simp at h
      | succ i =>
        simp only [List.get?_cons_succ] at h
        obtain ⟨⟨s, hs, hsp⟩, hr⟩ := ih tgt a i r h
        refine ⟨⟨s, by simpa using hs, hsp⟩, ?_⟩
        rw [hr, List.take_succ_cons, List.countP_cons]
        simp [hp]

/-- C6 fails on the code: for an entry whose first output path lacks the
`file://` prefix, the second of its two output paths (1-indexed `i = 2`,
`k = 2 > 1`) is staged as `attempt_1.log`, not the claimed `attempt_2.log`:
skipped paths do not advance the attempt counter. -/
theorem c6_counterexample :
    stage_entry_rel_paths { target := "t", status := "FAILED", paths := ["http://x", "file:///a"] } =
      [none, some (pathPush "t" (log_file_name 1))] ∧
    log_file_name 1 = "attempt_1.log" ∧
    log_file_name 2 = "attempt_2.log" ∧
    pathPush "t" (log_file_name 1) ≠ pathPush "t" (log_file_name 2) := by
  decide

/-- C6 (amended): among a staged entry's output paths, only those carrying
the `file://` prefix are mapped; a mapped path gets file name `test.log` when
the entry has at most one output path, and `attempt_N.log` when the entry has
k>1 output paths, where N counts 1-based over the entry's `file://`-prefixed
output paths only (skipped paths do not advance the counter). -/
theorem c6_attempt_numbering_amended :
    (∀ (t : TestLog) (i : Nat) (r : String),
      (stage_entry_rel_paths t).get? i = some (some r) →
      (∃ s, t.paths.get? i = some s ∧ starts_with_str s "file://" = true) ∧
      r = test_label_to_path_rel t.target
        (if t.paths.length ≤ 1 then 0
         else (t.paths.take i).countP (fun s => starts_with_str s "file://") + 1) ∧
      ∃ d, r = pathPush d (log_file_name
        (if t.paths.length ≤ 1 then 0
         else (t.paths.take i).countP (fun s => starts_with_str s "file://") + 1))) ∧
    (∀ t : TestLog, (stage_entry_rel_paths t).length = t.paths.length) ∧
    (∀ (o : Oracle) (tmpdir tgt : String) (a : Nat) (paths : List String),
      (stage_paths_fs o tmpdir tgt Mode.dry a paths).2 =
        Except.ok ((stage_rel_paths tgt a paths).filterMap id)) := by
  refine ⟨?_, ?_, ?_⟩
  · intro t i r h
    rw [stage_entry_rel_paths] at h
    obtain ⟨⟨s, hs, hsp⟩, hr⟩ := stage_rel_paths_get t.paths t.target _ i r h
    obtain ⟨hlt, -⟩ := List.get?_eq_some.mp hs
    have hcount : (if t.paths.length > 1 then 1 else 0) +
        (t.paths.take i).countP (fun s => starts_with_str s "file://") =
        (if t.paths.length ≤ 1 then 0
         else (t.paths.take i).countP (fun s => starts_with_str s "file://") + 1) := by
      by_cases hlen : t.paths.length ≤ 1
      · have hi : i = 0 := by omega
        subst hi
        simp [hlen, show ¬(t.paths.length > 1) from by omega]
      · simp [hlen, show t.paths.length > 1 from by omega]
        omega
    rw [hcount] at hr
    exact ⟨⟨s, hs, hsp⟩, hr, by rw [hr]; exact ⟨_, rfl⟩⟩
  · intro t
    rw [stage_entry_rel_paths]
    exact stage_rel_paths_length t.paths t.target _
  · intro o tmpdir tgt a paths
    induction paths generalizing a with
    | nil => rfl
    | cons p rest ih =>
      cases hp : starts_with_str p "file://" <;>
        simp [stage_paths_fs, stage_rel_paths, hp, ih, Except.map]

theorem c6_witness :
    "foo/bar/attempt_2.log" =
      test_label_to_path_rel "//foo:bar"
        (if (["file:///a", "file:///b"] : List String).length ≤ 1 then 0
         else ((["file:///a", "file:///b"] : List String).take 1).countP
           (fun s => starts_with_str s "file://") + 1) := by
  have h := c6_attempt_numbering_amended.1
    { target := "//foo:bar", status := "FAILED", paths := ["file:///a", "file:///b"] } 1
    "foo/bar/attempt_2.log" (by decide)
  exact h.2.1

/-! ## Claim C7 -/

theorem forall2_map (l : List Char) (f : Char → Char) :
    List.Forall₂ (fun a b => b = f a) l (l.map f) := by
  induction l with
  | nil => exact List.Forall₂.nil
  | cons a l ih => exact List.Forall₂.cons rfl ih

theorem dropWhile_head_not :
    ∀ (l : List Char) (p : Char → Bool) (c : Char),
      (l.dropWhile p).head? = some c → p c = false := by
  intro l p
  induction l with
  | nil => intro c h; simp [List.dropWhile] at h
  | cons a l ih =>
    intro c h
    rw [List.dropWhile_cons] at h
    by_cases hp : p a = true
    · rw [if_pos hp] at h
      exact ih c h
    · rw [if_neg hp] at h
      simp only [List.head?_cons, Option.some.injEq] at h
      subst h
      exact Bool.eq_false_iff.mpr hp

/-- C7 fails on the code: `trim_start_matches` removes every leading
separator, not exactly one.  On the ordinary label `//foo:bar` the code
produces `foo/bar/test.log`, while stripping exactly one leading separator
(as the claim states) would produce `/foo/bar/test.log`. -/
theorem c7_counterexample :
    test_label_to_path_rel "//foo:bar" 0 = "foo/bar/test.log" ∧
    test_label_to_path_claim_rel "//foo:bar" 0 = "/foo/bar/test.log" ∧
    ("foo/bar/test.log" : String) ≠ "/foo/bar/test.log" := by
  decide

/-- C7 (amended): destination-path construction replaces only the two
namespace-separator characters `/` and `:` with the platform separator,
leaves every other character unchanged, and strips all leading separators
(however many there are): the mapped label decomposes into a (possibly empty)
block of leading separators that is entirely discarded, followed by a
remainder that does not start with a separator, to which the log file name is
appended. -/
theorem c7_label_path_amended (label : String) (attempt : Nat) :
    List.Forall₂ (fun a b => b = if a = '/' ∨ a = ':' then MAIN_SEPARATOR else a)
      label.data (replace_separators label) ∧
    ∃ k rest, replace_separators label = List.replicate k MAIN_SEPARATOR ++ rest ∧
      (∀ c, rest.head? = some c → c ≠ MAIN_SEPARATOR) ∧
      test_label_to_path_rel label attempt = pathPush (String.mk rest) (log_file_name attempt) := by
  constructor
  · refine List.Forall₂.imp ?_
      (forall2_map label.data (fun c => if c == '/' || c == ':' then MAIN_SEPARATOR else c))
    intro a b hb
    rw [hb]
    by_cases h1 : a = '/' ∨ a = ':'
    · rcases h1 with h1 | h1 <;> subst h1 <;> simp
    · push_neg at h1
      simp [h1.1, h1.2]
  · refine ⟨((replace_separators label).takeWhile (fun c => c == MAIN_SEPARATOR)).length,
      (replace_separators label).dropWhile (fun c => c == MAIN_SEPARATOR), ?_, ?_, rfl⟩
    · have htake : (replace_separators label).takeWhile (fun c => c == MAIN_SEPARATOR) =
          List.replicate
            ((replace_separators label).takeWhile (fun c => c == MAIN_SEPARATOR)).length
            MAIN_SEPARATOR := by
        apply List.eq_replicate_iff.mpr
        refine ⟨rfl, ?_⟩
        intro b hb
        have := List.mem_takeWhile_imp hb
        exact eq_of_beq this
      conv_lhs => rw [← List.takeWhile_append_dropWhile
        (p := fun c => c == MAIN_SEPARATOR) (l := replace_separators label)]
      rw [← htake]
    · intro c hc
      have := dropWhile_head_not (replace_separators label) (fun c => c == MAIN_SEPARATOR) c hc
      intro hceq
      rw [hceq] at this
      simp at this

theorem c7_witness :
    List.Forall₂ (fun a b => b = if a = '/' ∨ a = ':' then MAIN_SEPARATOR else a)
      ("//a:b".data) (replace_separators "//a:b") :=
  (c7_label_path_amended "//a:b" 0).1

/-! ## Claim C8 -/

/-- The loop's result depends only on the file snapshots, not on the
per-iteration filesystem/upload oracle: `upload_test_logs` failures inside
the loop are swallowed (only warned about) and never abort or alter it. -/
theorem uploadLoop_files_indep :
    ∀ (fuel : Nat) (env1 env2 : Env) (tmpdir : String) (mode : Mode)
      (iter : Nat) (p : BepJsonParser) (retries tlo : Nat),
      env1.files = env2.files →
      uploadLoop env1 tmpdir mode fuel iter p retries tlo =
        uploadLoop env2 tmpdir mode fuel iter p retries tlo := by
  intro fuel
  induction fuel with
  | zero => intros; rfl
  | succ fuel ih =>
    intro env1 env2 tmpdir mode iter p retries tlo hf
    simp only [uploadLoop, hf]
    rcases hpr : BepJsonParser.parse p (env2.files iter) with ⟨p1, r⟩
    cases r with
    | ok u =>
      cases hd : p1.done <;>
        simp [hd, ih env1 env2 tmpdir mode (iter + 1) p1 max_retries p1.test_logs.length hf]
    | error e =>
      by_cases hz : retries - 1 = 0
      · simp [hz]
      · simp [hz, ih env1 env2 tmpdir mode (iter + 1) p1 (retries - 1) tlo hf]

/-- C8: per-entry upload failures during the main loop are logged and
swallowed — the run's outcome is independent of the per-iteration
filesystem/upload oracle, so an upload problem never aborts the tailing loop —
while a failure of the end-of-run whole-file upload (monitor-flaky enabled and
some FLAKY entry observed) is propagated to `upload()`'s caller. -/
theorem c8_upload_error_policy :
    (∀ (env1 env2 : Env) (finalO : Oracle) (path tmpdir : String) (mode : Mode)
        (mon : Bool) (fuel : Nat),
      env1.files = env2.files →
      upload env1 finalO path tmpdir mode mon fuel =
        upload env2 finalO path tmpdir mode mon fuel) ∧
    (∀ (env : Env) (finalO : Oracle) (path tmpdir : String) (fuel : Nat)
        (q : BepJsonParser) (e : String),
      uploadLoop env tmpdir Mode.buildkite fuel 0 (BepJsonParser.new path) max_retries 0 =
        some (Except.ok q) →
      q.has_test_status "FLAKY" = true →
      finalO.exec "buildkite-agent" ["artifact", "upload", path] none = Except.error e →
      upload env finalO path tmpdir Mode.buildkite true fuel =
        some (Except.error (AgentError.uploadErr
          ("Failed to execute command buildkite-agent: " ++ e)))) := by
  constructor
  · intro env1 env2 finalO path tmpdir mode mon fuel hf
    simp only [upload]
    rw [uploadLoop_files_indep fuel env1 env2 tmpdir mode 0 (BepJsonParser.new path)
      max_retries 0 hf]
  · intro env finalO path tmpdir fuel q e hloop hflaky hexec
    simp only [upload]
    rw [hloop]
    simp only [hflaky, Bool.true_and, if_true]
    simp only [upload_bep_json_file, upload_artifacts, buildkite_artifact_upload,
      execute_command, joinSep]
    rw [hexec]
    rfl

theorem c8_witness :
    upload flakyEnv execFailOracle "f" "tmp" Mode.buildkite true 1 =
      some (Except.error (AgentError.uploadErr
        ("Failed to execute command buildkite-agent: " ++ "boom"))) :=
  c8_upload_error_policy.2 flakyEnv execFailOracle "f" "tmp" 1
    { path := "f", offset := 17, line := 3, done := true,
      test_logs := [{ target := "//t", status := "FLAKY", paths := ["file:///a"] }] }
    "boom" (by decide) rfl rfl

/-! ## Claim C9 -/

theorem app_execCalls (a b : Effects) : (a ++ b).execCalls = a.execCalls ++ b.execCalls := rfl

theorem app_mkdirCalls (a b : Effects) : (a ++ b).mkdirCalls = a.mkdirCalls ++ b.mkdirCalls := rfl

theorem app_copyCalls (a b : Effects) : (a ++ b).copyCalls = a.copyCalls ++ b.copyCalls := rfl

theorem stage_paths_fs_dry_effects :
    ∀ (paths : List String) (o : Oracle) (tmpdir tgt : String) (a : Nat),
      (stage_paths_fs o tmpdir tgt Mode.dry a paths).1.execCalls = [] ∧
      (stage_paths_fs o tmpdir tgt Mode.dry a paths).1.mkdirCalls = [] ∧
      (stage_paths_fs o tmpdir tgt Mode.dry a paths).1.copyCalls = [] := by
  intro paths
  induction paths with
  | nil => intro o tmpdir tgt a; exact ⟨rfl, rfl, rfl⟩
  | cons p rest ih =>
    intro o tmpdir tgt a
    cases hp : starts_with_str p "file://" <;>
      simp [stage_paths_fs, hp, app_execCalls, app_mkdirCalls, app_copyCalls, ih,
        emptyEffects]

theorem stage_entries_dry_effects :
    ∀ (logs : List TestLog) (o : Oracle) (tmpdir : String),
      (stage_entries o tmpdir Mode.dry logs).1.execCalls = [] ∧
      (stage_entries o tmpdir Mode.dry logs).1.mkdirCalls = [] ∧
      (stage_entries o tmpdir Mode.dry logs).1.copyCalls = [] := by
  intro logs
  induction logs with
  | nil => intro o tmpdir; exact ⟨rfl, rfl, rfl⟩
  | cons t ts ih =>
    intro o tmpdir
    obtain ⟨he, hm, hc⟩ := stage_paths_fs_dry_effects t.paths o tmpdir t.target
      (if t.paths.length > 1 then 1 else 0)
    obtain ⟨he2, hm2, hc2⟩ := ih o tmpdir
    rcases hsp : stage_paths_fs o tmpdir t.target Mode.dry
      (if t.paths.length > 1 then 1 else 0) t.paths with ⟨eff, res⟩
    rw [hsp] at he hm hc
    dsimp only at he hm hc
    rcases hse : stage_entries o tmpdir Mode.dry ts with ⟨eff2, res2⟩
    rw [hse] at he2 hm2 hc2
    dsimp only at he2 hm2 hc2
    cases res with
    | error e =>
      simp only [stage_entries, hsp, hse]
      exact ⟨he, hm, hc⟩
    | ok arts =>
      cases res2 with
      | error e =>
        simp only [stage_entries, hsp, hse]
        simp [app_execCalls, app_mkdirCalls, app_copyCalls, he, hm, hc, he2, hm2, hc2]
      | ok arts2 =>
        simp only [stage_entries, hsp, hse]
        simp [app_execCalls, app_mkdirCalls, app_copyCalls, he, hm, hc, he2, hm2, hc2]

/-- C9 fails on the code: a non-empty entry batch whose every output path
lacks the `file://` prefix stages nothing — the batch of artifacts to publish
is empty (`Except.ok []`) — yet in CI-backend mode the external agent is
still invoked once, with the empty joined path string. -/
theorem c9_counterexample :
    (stage_entries okOracle "tmp" Mode.buildkite
      [{ target := "t", status := "FAILED", paths := ["http://x"] }]).2 = Except.ok [] ∧
    (upload_test_logs okOracle "tmp"
      [{ target := "t", status := "FAILED", paths := ["http://x"] }] Mode.buildkite).1.execCalls =
      [("buildkite-agent", ["artifact", "upload", ""], some "tmp")] := by
  decide

/-- C9 (amended): an empty batch of test-log *entries* is a no-op — the
backend is not invoked and no filesystem mutation occurs, in both modes — and
dry mode never invokes the backend or mutates the filesystem for any batch;
but in CI-backend mode an empty *artifact* list produced from a non-empty
entry batch does not prevent the single backend invocation. -/
theorem c9_empty_batch_amended :
    (∀ (o : Oracle) (tmpdir : String) (mode : Mode),
      upload_test_logs o tmpdir [] mode = (emptyEffects, Except.ok ())) ∧
    (∀ (o : Oracle) (tmpdir : String) (logs : List TestLog),
      (upload_test_logs o tmpdir logs Mode.dry).1.execCalls = [] ∧
      (upload_test_logs o tmpdir logs Mode.dry).1.mkdirCalls = [] ∧
      (upload_test_logs o tmpdir logs Mode.dry).1.copyCalls = []) := by
  constructor
  · intro o tmpdir mode
    rfl
  · intro o tmpdir logs
    by_cases hempty : logs.isEmpty = true
    · simp [upload_test_logs, hempty, emptyEffects]
    · obtain ⟨he, hm, hc⟩ := stage_entries_dry_effects logs o tmpdir
      rcases hse : stage_entries o tmpdir Mode.dry logs with ⟨eff, res⟩
      rw [hse] at he hm hc
      dsimp only at he hm hc
      cases res with
      | error e =>
        simp only [upload_test_logs, hempty, if_false, hse]
        exact ⟨he, hm, hc⟩
      | ok arts =>
        simp only [upload_test_logs, hempty, if_false, hse]
        simp [upload_artifacts, app_execCalls, app_mkdirCalls, app_copyCalls, he, hm, hc,
          emptyEffects]

theorem c9_witness :
    upload_test_logs okOracle "x" [] Mode.dry = (emptyEffects, Except.ok ()) :=
  c9_empty_batch_amended.1 okOracle "x" Mode.dry

/-! ## Claim C10 -/

/-- C10: a record is a terminal last message exactly when its `lastMessage`
field is the JSON boolean `true`; a missing field, the boolean `false`, or
any non-boolean value (a string "true", a number, ...) leaves the parser not
done. -/
theorem c10_last_message_iff (e : BuildEvent) :
    e.is_last_message = true ↔ Json.getKey e.value "lastMessage" = some (Json.bool true) := by
  have hget : e.get "lastMessage" = Json.getKey e.value "lastMessage" := rfl
  rw [BuildEvent.is_last_message, hget]
  cases hk : Json.getKey e.value "lastMessage" with
  | none => simp
  | some j =>
    cases j with
    | bool b => cases b <;> simp [Json.as_bool]
    | null => simp [Json.as_bool]
    | num n => simp [Json.as_bool]
    | str s => simp [Json.as_bool]
    | arr elems => simp [Json.as_bool]
    | obj fields => simp [Json.as_bool]

theorem c10_witness :
    BuildEvent.is_last_message { value := Json.obj [("lastMessage", Json.bool true)] } = true :=
  (c10_last_message_iff { value := Json.obj [("lastMessage", Json.bool true)] }).mpr rfl

end CIAgent
